import Mathlib

/-!
Verification of the metacog Memory Store + Consolidation subsystem.

The Python sources under src/engine (memory.py, dreaming.py,
response_parser.py) and src/mcp_server/memory_tools.py are embedded
shallowly: pure text functions become Lean functions over `List Char` /
`String`, stateful ChromaDB + JSONL operations become explicit state
passing over a `Store` record, and floating point scores become `Rat`.
Timestamps/record ids (Python `datetime.now()` with microsecond format)
are modelled by a monotone `clock : Nat` counter, and the external
vector index collaborator is a parameter (a list of neighbors with
cosine distances).  Python `str.lower`/`str.upper` are modelled
character-wise (ASCII case mapping), and Python set iteration order in
`extract_keywords` is determinized to discovery order (the source order
is hash-dependent and unspecified; all properties proved below depend
only on set membership).
-/

namespace Metacog

/-! ## Basic string helpers (Python string primitives) -/

/-- Python `needle in hay` substring test, on char lists. -/
def listContains (hay needle : List Char) : Bool :=
  hay.tails.any (fun t => needle.isPrefixOf t)

/-- Python `needle in hay` substring test. -/
def strContains (hay needle : String) : Bool :=
  listContains hay.data needle.data

/-- Python `str.lower`, character-wise. -/
def lowerStr (s : String) : String :=
  String.mk (s.data.map Char.toLower)

/-- Python `str.upper`, character-wise. -/
def upperStr (s : String) : String :=
  String.mk (s.data.map Char.toUpper)

/-- Python `str.strip()`. -/
def stripStr (s : String) : String :=
  String.mk (((s.data.dropWhile Char.isWhitespace).reverse.dropWhile Char.isWhitespace).reverse)

/-- Python `str.rstrip()`. -/
def rstripStr (s : String) : String :=
  String.mk ((s.data.reverse.dropWhile Char.isWhitespace).reverse)

/-- Python slicing `s[:n]` by code points. -/
def takeStr (n : Nat) (s : String) : String :=
  String.mk (s.data.take n)

/-- Python slicing `s[n:]` by code points. -/
def dropStr (n : Nat) (s : String) : String :=
  String.mk (s.data.drop n)

/-- Python `s.startswith(p)`. -/
def startsWithStr (s p : String) : Bool :=
  p.data.isPrefixOf s.data

/-- Python `s.endswith(p)`. -/
def endsWithStr (s p : String) : Bool :=
  p.data.isSuffixOf s.data

/-- Python `len(s)` (code points). -/
def strLen (s : String) : Nat := s.data.length

/-- Split a char list on a separator character (Python `str.split(sep)`). -/
def splitOnChar (sep : Char) : List Char → List (List Char)
  | [] => [[]]
  | c :: cs =>
    match splitOnChar sep cs with
    | h :: t => if c = sep then [] :: h :: t else (c :: h) :: t
    | [] => if c = sep then [[], []] else [[c]]

/-- Python `s.split(sep)` on a newline, as strings. -/
def splitLines (s : String) : List String :=
  (splitOnChar (Char.ofNat 10) s.data).map String.mk

/-- Split at the first occurrence of a pattern (Python `s.split(pat, 1)`):
returns the part before and the part after the first match, if any. -/
def splitFirst (pat : List Char) : List Char → Option (List Char × List Char)
  | [] => if pat.isEmpty then some ([], []) else none
  | c :: cs =>
    if pat.isPrefixOf (c :: cs) then some ([], (c :: cs).drop pat.length)
    else
      match splitFirst pat cs with
      | some (pre, post) => some (c :: pre, post)
      | none => none

/-- Python `l[-n:]` for a list. -/
def lastN (n : Nat) (l : List α) : List α :=
  l.drop (l.length - n)

/-! ## Keyword extractor (memory.py extract_keywords)

Regex findall over a character class with a `{k,}` repetition returns the
maximal runs of that class of length at least k, in discovery order.  The
Python source unions the five passes into a set and truncates to 20; here
the union is determinized to discovery order with duplicates removed. -/

/-- Maximal runs of characters satisfying p (accumulator is the current
run, reversed). -/
def splitRunsAux (p : Char → Bool) (acc : List Char) : List Char → List (List Char)
  | [] => if acc.isEmpty then [] else [acc.reverse]
  | c :: cs =>
    if p c then splitRunsAux p (c :: acc) cs
    else if acc.isEmpty then splitRunsAux p [] cs
    else acc.reverse :: splitRunsAux p [] cs

def runsOf (p : Char → Bool) (s : List Char) : List (List Char) :=
  splitRunsAux p [] s

/-- Maximal runs of class p with length at least n, as strings. -/
def runsMin (p : Char → Bool) (n : Nat) (s : List Char) : List String :=
  ((runsOf p s).filter (fun r => n ≤ r.length)).map String.mk

def isKatakana (c : Char) : Bool := decide (0x30A0 ≤ c.val) && decide (c.val ≤ 0x30FF)
def isKanji (c : Char) : Bool := decide (0x4E00 ≤ c.val) && decide (c.val ≤ 0x9FFF)
def isHiragana (c : Char) : Bool := decide (0x3040 ≤ c.val) && decide (c.val ≤ 0x309F)
def isAsciiAlpha (c : Char) : Bool := c.isUpper || c.isLower
def isHiraKanji (c : Char) : Bool := isHiragana c || isKanji c

/-- Python regex `\w` restricted to the scripts this codebase stores
(ASCII alphanumerics, underscore, kana, kanji). -/
def isWordChar (c : Char) : Bool :=
  c.isAlphanum || c = '_' || isKatakana c || isKanji c || isHiragana c

/-- The pattern `[\w]+\d+[\w]*|[\d]+[\w]+` matches exactly the maximal
word-character runs of length at least 2 that contain a digit. -/
def withNumberRuns (s : List Char) : List String :=
  ((runsOf isWordChar s).filter
    (fun r => decide (2 ≤ r.length) && r.any Char.isDigit)).map String.mk

/-- memory.py extract_keywords: katakana runs (len 2+), kanji runs (2+),
lowercased ASCII-alpha runs (3+), hiragana/kanji mixed runs (2+), and
word runs containing digits; deduplicated, first 20. -/
def extract_keywords (content : String) : List String :=
  let cs := content.data
  let kata := runsMin isKatakana 2 cs
  let kanji := runsMin isKanji 2 cs
  let english := (runsMin isAsciiAlpha 3 cs).map lowerStr
  let mixed := runsMin isHiraKanji 2 cs
  let nums := withNumberRuns cs
  ((kata ++ kanji ++ english ++ mixed ++ nums).dedup).take 20

/-! ## Lexical match score (memory.py search, keyword pass) -/

/-- The keyword-pass score of one record, exactly as memory.py computes
match_score for a document: 0.9 for case-insensitive containment of the
query in the content, else 0.85 for case-sensitive containment; raised
to 0.85 when the lowered query occurs in the lowered keywords field;
raised to 0.7 when some extracted query keyword occurs in the lowered
content or lowered keywords. -/
def matchScore (query original keywordsStr : String) (queryKeywords : List String) : ℚ :=
  let queryLower := lowerStr query
  let docLower := lowerStr original
  let docKeywords := lowerStr keywordsStr
  let s1 : ℚ :=
    if strContains docLower queryLower then 9/10
    else if strContains original query then 17/20
    else 0
  let s2 : ℚ := if strContains docKeywords queryLower then max s1 (17/20) else s1
  let s3 : ℚ :=
    if queryKeywords.any (fun kw => strContains docLower kw || strContains docKeywords kw) then
      max s2 (7/10)
    else s2
  s3

/-! ## Data model (memory.py UnifiedMemory state)

A live ChromaDB record.  The Python id string
`f"{category}_{datetime...%f}"` is unique per process thanks to the
microsecond timestamp; it is modelled by the store clock value at save
time.  `content` holds the `original_content` metadata field, `keywords`
the comma-joined cached keyword string. -/
structure MemRec where
  id : Nat
  content : String
  category : String
  keywords : String
  createdAt : Nat
  source : String
  deriving DecidableEq, Repr

/-- One line of data/memory_archive.jsonl. -/
structure ArchEntry where
  id : Nat
  content : String
  category : String
  keywords : String
  createdAt : Nat
  archivedAt : Nat
  source : String
  deriving DecidableEq, Repr

/-- One line of data/feedback.jsonl. -/
structure FeedbackEntry where
  timestamp : Nat
  feedback : String
  deriving DecidableEq, Repr

/-- One line of data/insights.jsonl as written by dreaming. -/
structure InsightEntry where
  timestamp : Nat
  category : String
  insight : String
  source : String
  deriving DecidableEq, Repr

/-- One line of data/dream_archives.jsonl. -/
structure DreamArchiveEntry where
  archivedAt : Nat
  memoriesProcessed : Nat
  feedbacksUsed : Nat
  previousInsightsUsed : Nat
  insightsGenerated : List String
  deriving DecidableEq, Repr

/-- The persistent state owned by UnifiedMemory: the live ChromaDB
collection plus the JSONL side files.  `memoryArchive = none` models a
memory_archive.jsonl file that does not exist yet; the archived copies
of feedback/insights carry their archive timestamp alongside the entry.
`clock` models `datetime.now()` as a monotone counter and is the source
of fresh record ids. -/
structure Store where
  live : List MemRec
  memoryArchive : Option (List ArchEntry)
  feedback : List FeedbackEntry
  feedbackArchive : List (FeedbackEntry × Nat)
  insights : List InsightEntry
  insightsArchive : List (InsightEntry × Nat)
  dreamArchives : List DreamArchiveEntry
  loraCount : Nat
  clock : Nat
  deriving DecidableEq, Repr

/-- The closed category set of memory.py. -/
def CATEGORIES : List String := ["chat", "dream", "observation"]

/-! ## UnifiedMemory operations -/

/-- memory.py UnifiedMemory.save: coerce an unknown category to "chat",
strip the content, cache extracted keywords, insert one record, return
the generated id.  There is no empty-content check. -/
def save (st : Store) (content category source : String) : Store × Nat :=
  let cat := if CATEGORIES.contains category then category else "chat"
  let formatted := stripStr content
  let kws := String.intercalate "," (extract_keywords content)
  let r : MemRec :=
    { id := st.clock, content := formatted, category := cat,
      keywords := kws, createdAt := st.clock, source := source }
  ({ st with live := st.live ++ [r], clock := st.clock + 1 }, st.clock)

/-- memory.py UnifiedMemory.count with no category filter. -/
def count (st : Store) : Nat := st.live.length

/-- memory.py get_feedback: the last `limit` feedback lines. -/
def get_feedback (st : Store) (limit : Nat := 10) : List FeedbackEntry :=
  lastN limit st.feedback

/-- memory.py get_archived_memories (missing file reads as empty). -/
def get_archived_memories (st : Store) : List ArchEntry :=
  st.memoryArchive.getD []

/-- memory.py batch_delete: ChromaDB delete raises nothing for unknown
ids, so every id counts as deleted and matching records vanish. -/
def batch_delete (st : Store) (ids : List Nat) : Store × Nat :=
  ({ st with live := st.live.filter (fun r => ¬ ids.contains r.id) }, ids.length)

/-- memory.py archive_memories, one id: fetch the record, append an
archive line (creating the file on first append), delete it from the
live collection.  Returns whether the id was found. -/
def archiveOne (ts : Nat) (st : Store) (mid : Nat) : Store × Bool :=
  match st.live.find? (fun r => r.id = mid) with
  | none => (st, false)
  | some r =>
    let entry : ArchEntry :=
      { id := r.id, content := r.content, category := r.category,
        keywords := r.keywords, createdAt := r.createdAt,
        archivedAt := ts, source := r.source }
    ({ st with
        memoryArchive := some (st.memoryArchive.getD [] ++ [entry]),
        live := st.live.filter (fun x => ¬ x.id = mid) }, true)

/-- memory.py archive_memories over a batch: per-id failures are
collected, the rest proceeds.  Returns (state, archived_count,
failed_count). -/
def archive_memories (st : Store) (ids : List Nat) : Store × Nat × Nat :=
  ids.foldl
    (fun acc mid =>
      let step := archiveOne st.clock acc.1 mid
      (step.1, if step.2 then acc.2.1 + 1 else acc.2.1,
       if step.2 then acc.2.2 else acc.2.2 + 1))
    (st, 0, 0)

/-- memory.py _remove_archive_entries: no-op when the file is missing or
the index set is empty; otherwise keeps the lines whose position is not
in the set and returns the size of the requested set. -/
def remove_archive_entries (st : Store) (indices : List Int) : Store × Nat :=
  match st.memoryArchive with
  | none => (st, 0)
  | some arch =>
    if indices.isEmpty then (st, 0)
    else
      let remaining := (arch.enum.filter
        (fun e => ¬ indices.contains (e.1 : Int))).map Prod.snd
      ({ st with memoryArchive := some remaining }, indices.length)

/-- memory.py delete_archived_memories: requested indices are
deduplicated into a set, then removed by position. -/
def delete_archived_memories (st : Store) (indices : List Int) : Store × Nat :=
  remove_archive_entries st indices.dedup

/-- memory.py restore_memories: re-save each valid archive line (the
archive list is read once up front), then drop the restored positions
from the archive file.  Returns (state, restored_count, failed_count). -/
def restore_memories (st : Store) (indices : List Int) : Store × Nat × Nat :=
  let arch := get_archived_memories st
  let step := indices.foldl
    (fun (acc : Store × Nat × Nat × List Int) idx =>
      if idx < 0 ∨ (arch.length : Int) ≤ idx then
        (acc.1, acc.2.1, acc.2.2.1 + 1, acc.2.2.2)
      else
        let entry := arch.getD idx.toNat
          { id := 0, content := "", category := "", keywords := "",
            createdAt := 0, archivedAt := 0, source := "" }
        let st' := (save acc.1 entry.content entry.category entry.source).1
        (st', acc.2.1 + 1, acc.2.2.1, acc.2.2.2 ++ [idx]))
    (st, 0, 0, [])
  ((remove_archive_entries step.1 step.2.2.2.dedup).1, step.2.1, step.2.2.1)

/-- memory.py archive_feedback: only the last ten feedback lines (the
get_feedback default) are copied to feedback.archived.jsonl, then the
whole live feedback file is cleared; an empty feedback list is a no-op
returning zero. -/
def archive_feedback (st : Store) : Store × Nat :=
  let fbs := get_feedback st
  if fbs.isEmpty then (st, 0)
  else
    ({ st with
        feedbackArchive := st.feedbackArchive ++ fbs.map (fun fb => (fb, st.clock)),
        feedback := [] }, fbs.length)

/-- memory.py archive_insights: move the current insights file to its
.archived companion (stamped) and overwrite it with the new entries. -/
def archive_insights (st : Store) (newInsights : List InsightEntry) : Store :=
  let old := st.insights
  { st with
      insightsArchive :=
        if old.isEmpty then st.insightsArchive
        else st.insightsArchive ++ old.map (fun e => (e, st.clock)),
      insights := newInsights }

/-! ## Insight parser (dreaming.py _parse_categorized_insights) -/

/-- Locate the first right bracket in a char list, returning the part
before it and the part after it (Python `line.index("]")` on the tail of
a line known to start with a left bracket). -/
def splitAtRBracket : List Char → Option (List Char × List Char)
  | [] => none
  | c :: cs =>
    if c = ']' then some ([], cs)
    else
      match splitAtRBracket cs with
      | some (pre, post) => some (c :: pre, post)
      | none => none

/-- dreaming.py _parse_categorized_insights: keep only stripped lines of
length at least 5 of the shape `[category] content` with both parts
nonempty after stripping. -/
def parse_categorized_insights (response : String) : List (String × String) :=
  (splitLines (stripStr response)).filterMap (fun l =>
    let line := stripStr l
    if strLen line < 5 then none
    else
      match line.data with
      | '[' :: rest =>
        match splitAtRBracket rest with
        | some (pre, post) =>
          let category := stripStr (String.mk pre)
          let content := stripStr (String.mk post)
          if category ≠ "" ∧ content ≠ "" then some (category, content) else none
        | none => none
      | _ => none)

/-! ## Chat response splitter (response_parser.py ResponseParser.parse) -/

structure ParsedResponse where
  response : String
  insights : List String
  saves : List String
  raw : String
  deriving DecidableEq, Repr

def INSIGHT_HEADER : String := "## 気づき"
def SAVE_MARKER : String := "[SAVE]"
def SEPARATOR : String := "---"

/-- One line of the insight section: strip, drop a `- ` or `* ` bullet,
and classify as a voluntary save (case-insensitive `[SAVE]` marker with
nonempty remainder), an insight (length strictly above 5), or noise. -/
def classifyLine (l : String) : Option (Sum String String) :=
  let line₀ := stripStr l
  let line :=
    if startsWithStr line₀ "- " then stripStr (dropStr 2 line₀)
    else if startsWithStr line₀ "* " then stripStr (dropStr 2 line₀)
    else line₀
  if line = "" then none
  else if startsWithStr (upperStr line) SAVE_MARKER then
    let saveContent := stripStr (dropStr (strLen SAVE_MARKER) line)
    if saveContent ≠ "" then some (Sum.inr saveContent) else none
  else if 5 < strLen line then some (Sum.inl line)
  else none

/-- The voluntary-save part of the classification of one section line. -/
def saveOfLine (l : String) : Option String :=
  match classifyLine l with
  | some (Sum.inr s) => some s
  | _ => none

/-- The insight-section scan of ResponseParser.parse, yielding the
insight list and the voluntary-save list. -/
def parseSection (sect : String) : List String × List String :=
  let classified := (splitLines (stripStr sect)).filterMap classifyLine
  (classified.filterMap (fun x => match x with | Sum.inl i => some i | _ => none),
   classified.filterMap (fun x => match x with | Sum.inr s => some s | _ => none))

/-- Cleanup of the pre-header part: right strip, then drop one trailing
`---` separator and right strip again. -/
def respCleanup (pre : String) : String :=
  let resp₀ := rstripStr pre
  if endsWithStr resp₀ SEPARATOR then
    rstripStr (String.mk (resp₀.data.take (resp₀.data.length - SEPARATOR.data.length)))
  else resp₀

/-- response_parser.py ResponseParser.parse: empty input yields empty
parts; when the `## 気づき` header occurs, the text before it (right
stripped, with a trailing `---` removed) becomes the user response and
the section after it is scanned for insights and `[SAVE]` lines;
otherwise the whole output is returned untouched with no extraction. -/
def responseParse (raw : String) : ParsedResponse :=
  if raw = "" then { response := "", insights := [], saves := [], raw := "" }
  else
    match splitFirst INSIGHT_HEADER.data raw.data with
    | some (pre, post) =>
      { response := respCleanup (String.mk pre),
        insights := (parseSection (String.mk post)).1,
        saves := (parseSection (String.mk post)).2, raw := raw }
    | none => { response := raw, insights := [], saves := [], raw := raw }

/-! ## Dreaming engine (dreaming.py DreamingEngine.dream)

The external text-generation collaborator is a parameter: `response` is
the text it returned (its error sentinel is a string starting with
"Error" or "API Error", or an empty reply). -/

structure DreamResult where
  status : String
  reason : String
  memoriesProcessed : Nat
  memoriesDeleted : Nat
  feedbacksUsed : Nat
  feedbacksArchived : Nat
  insightsGenerated : Nat
  insights : List String
  deriving DecidableEq, Repr

def DreamResult.empty (status reason : String) : DreamResult :=
  { status := status, reason := reason, memoriesProcessed := 0,
    memoriesDeleted := 0, feedbacksUsed := 0, feedbacksArchived := 0,
    insightsGenerated := 0, insights := [] }

/-- dreaming.py error check on the collaborator reply. -/
def errorFlagged (r : String) : Bool :=
  r = "" || startsWithStr r "Error" || startsWithStr r "API Error"

/-- The mutation phase of a successful dream cycle (dreaming.py steps
7-8), over the already parsed insight list: rotate the insights file,
save each insight as a record, archive the exported feedback, batch
delete the exported non-voluntary memories, append the dream-archive
and LoRA lines. -/
def dreamApply (st : Store) (memories : List MemRec)
    (feedbacks : List FeedbackEntry) (parsed : List (String × String)) :
    Store × DreamResult :=
  let ts := st.clock
  let newEntries := parsed.map (fun ci =>
    ({ timestamp := ts, category := ci.1, insight := ci.2,
       source := "dreaming" } : InsightEntry))
  let st₁ := archive_insights st newEntries
  let st₂ := parsed.foldl (fun s ci => (save s ci.2 ci.1 "dreaming").1) st₁
  let fb := archive_feedback st₂
  let st₃ := fb.1
  let fbArchived := fb.2
  let memIds := (memories.filter (fun m => ¬ m.category = "voluntary")).map MemRec.id
  let del := if memIds.isEmpty then (st₃, 0) else batch_delete st₃ memIds
  let st₄ := del.1
  let deletedCount := del.2
  let insightsForArchive := parsed.map (fun ci => "[" ++ ci.1 ++ "] " ++ ci.2)
  let st₅ :=
    { st₄ with
        dreamArchives := st₄.dreamArchives ++
          [{ archivedAt := ts, memoriesProcessed := memories.length,
             feedbacksUsed := feedbacks.length, previousInsightsUsed := 0,
             insightsGenerated := insightsForArchive }],
        loraCount := st₄.loraCount + 1 }
  (st₅,
   { status := "completed", reason := "",
     memoriesProcessed := memories.length,
     memoriesDeleted := deletedCount,
     feedbacksUsed := feedbacks.length,
     feedbacksArchived := fbArchived,
     insightsGenerated := parsed.length,
     insights := insightsForArchive })

/-- dreaming.py DreamingEngine.dream as a state transformer.  Export is
a read; a skip (nothing to process) or an error-flagged reply leaves the
store untouched.  On success: old insights are rotated out and the
parsed insights written (falling back to the whole reply truncated to
500 when nothing parses), each insight is saved as a new record, the
exported feedback is archived, the exported memories outside category
"voluntary" are batch-deleted from the live collection (bypassing the
memory archive file), and one dream-archive line plus one LoRA line are
appended. -/
def dream (st : Store) (response : String) : Store × DreamResult :=
  let memories := st.live
  let feedbacks := get_feedback st
  if memories.isEmpty ∧ feedbacks.isEmpty then
    (st, DreamResult.empty "skipped" "No memories or feedback")
  else if errorFlagged response then
    (st, DreamResult.empty "failed" ("LLM error: " ++ takeStr 100 response))
  else
    let parsed₀ := parse_categorized_insights response
    let parsed :=
      if parsed₀.isEmpty then [("insight", takeStr 500 (stripStr response))] else parsed₀
    dreamApply st memories feedbacks parsed

/-! ## Hybrid search (memory.py UnifiedMemory.search)

The vector index collaborator is a parameter: `neighbors` is the reply
of collection.query (ids, documents, cosine distances, metadata), in
ranked order, already restricted by any category filter on the
collaborator side. -/

structure Neighbor where
  id : Nat
  doc : String
  distance : ℚ
  originalContent : Option String
  category : String
  keywords : String
  deriving DecidableEq, Repr

def Neighbor.content (n : Neighbor) : String := n.originalContent.getD n.doc

structure SearchHit where
  id : Nat
  content : String
  category : String
  keywords : String
  relevance : ℚ
  matchType : String
  deriving DecidableEq, Repr

/-- Python round(x, 3): round half to even at the third decimal. -/
def roundHalfEven (x : ℚ) : ℤ :=
  let f := ⌊x⌋
  if x - f < 1/2 then f
  else if 1/2 < x - f then f + 1
  else if Even f then f else f + 1

def round3 (x : ℚ) : ℚ := (roundHalfEven (x * 1000) : ℚ) / 1000

/-- The semantic pass: walk the neighbor list, mark every visited id as
seen (before the threshold test), convert each distance to the
similarity max(0, 1 - d), and keep the neighbors at or above 0.3.
Returns the hits and the final seen set. -/
def semanticPass : List Neighbor → List Nat → List SearchHit × List Nat
  | [], seen => ([], seen)
  | n :: ns, seen =>
    if seen.contains n.id then semanticPass ns seen
    else
      let rel : ℚ := max 0 (1 - n.distance)
      let rest := semanticPass ns (n.id :: seen)
      if 3/10 ≤ rel then
        ({ id := n.id, content := n.content, category := n.category,
           keywords := n.keywords, relevance := round3 rel,
           matchType := "semantic" } :: rest.1, rest.2)
      else rest

/-- The keyword pass: scan the stored records, skipping ids already seen
and records outside the requested category, score with matchScore, and
keep positive scores (marking them seen). -/
def lexicalPass (query : String) (queryKeywords : List String)
    (category : Option String) :
    List MemRec → List Nat → List SearchHit × List Nat
  | [], seen => ([], seen)
  | d :: ds, seen =>
    if seen.contains d.id then lexicalPass query queryKeywords category ds seen
    else if category.isSome ∧ category ≠ some d.category then
      lexicalPass query queryKeywords category ds seen
    else
      let score := matchScore query d.content d.keywords queryKeywords
      if 0 < score then
        let rest := lexicalPass query queryKeywords category ds (d.id :: seen)
        ({ id := d.id, content := d.content, category := d.category,
           keywords := d.keywords, relevance := score,
           matchType := "keyword" } :: rest.1, rest.2)
      else lexicalPass query queryKeywords category ds seen

/-- Stable insertion for the descending relevance sort (Python list.sort
with reverse=True is stable; an element is placed before the first
element of not-larger relevance). -/
def insertDesc (h : SearchHit) : List SearchHit → List SearchHit
  | [] => [h]
  | x :: xs => if x.relevance ≤ h.relevance then h :: x :: xs else x :: insertDesc h xs

def sortDesc (l : List SearchHit) : List SearchHit := l.foldr insertDesc []

/-- memory.py UnifiedMemory.search: the category-only path lists up to
`limit` records of the category at fixed relevance 0.8; otherwise the
semantic pass over the collaborator neighbors runs first, the keyword
pass scans the first 1000 stored records next, and the union is sorted
by relevance (stable, descending) and truncated to `limit`. -/
def search (st : Store) (query : String) (limit : Nat)
    (category : Option String) (neighbors : List Neighbor) : List SearchHit :=
  if stripStr query = "" then
    match category with
    | some c =>
      ((st.live.filter (fun r => r.category = c)).take limit).map (fun r =>
        { id := r.id, content := r.content, category := r.category,
          keywords := r.keywords, relevance := 4/5,
          matchType := "category_filter" })
    | none => []
  else
    let sem := semanticPass neighbors []
    let lex := lexicalPass query (extract_keywords query) category (st.live.take 1000) sem.2
    (sortDesc (sem.1 ++ lex.1)).take limit

/-! ## MCP tool boundary (memory_tools.py save_memory) -/

structure SaveToolResult where
  status : String
  message : String
  memoryId : Option Nat
  deriving DecidableEq, Repr

def CATEGORIES_TOOL : List String := ["chat", "dream", "observation", "exchange"]

/-- memory_tools.py save_memory: whitespace-only content is rejected at
this boundary with an error-status result and nothing stored; otherwise
an unknown category falls back to "chat" and the record is stored with
the `[余韻]` prefix and source mcp_tool, returning the generated id. -/
def save_memory_tool (st : Store) (content category : String) : Store × SaveToolResult :=
  if stripStr content = "" then
    (st, { status := "error", message := "Empty content", memoryId := none })
  else
    let cat := if CATEGORIES_TOOL.contains category then category else "chat"
    let formatted := "[余韻] " ++ stripStr content
    let kws := String.intercalate "," (extract_keywords content)
    let r : MemRec :=
      { id := st.clock, content := formatted, category := cat,
        keywords := kws, createdAt := st.clock, source := "mcp_tool" }
    ({ st with live := st.live ++ [r], clock := st.clock + 1 },
     { status := "ok", message := "", memoryId := some st.clock })

/-! ## Concrete fixtures for counterexamples and witnesses -/

/-- A store holding a single chat memory and nothing else. -/
def recCat : MemRec :=
  { id := 0, content := "猫が好き", category := "chat", keywords := "猫が好き",
    createdAt := 0, source := "" }

def stOne : Store :=
  { live := [recCat], memoryArchive := none, feedback := [], feedbackArchive := [],
    insights := [], insightsArchive := [], dreamArchives := [], loraCount := 0,
    clock := 1 }

/-- The empty store. -/
def stEmpty : Store :=
  { live := [], memoryArchive := none, feedback := [], feedbackArchive := [],
    insights := [], insightsArchive := [], dreamArchives := [], loraCount := 0,
    clock := 0 }

/-- The §8 parser scenario input. -/
def c4Input : String :=
  "[preference] コーヒーが好き\n- 短い\n1. 十分な長さのテキストです"

/-- A reply whose first line carries the voluntary-save marker, with no
insight header anywhere. -/
def c5Input : String := "[SAVE] 大事なこと\nこんにちは"

/-- A reply with an insight header and one marked save line. -/
def c5HeaderInput : String := "hi\n---\n## 気づき\n- [SAVE] remember me"

/-- A neighbor at cosine distance 0.7 (similarity exactly 0.3). -/
def nbAt : Neighbor :=
  { id := 0, doc := "passage: 猫が好き", distance := 7/10,
    originalContent := some "猫が好き", category := "chat", keywords := "猫が好き" }

/-- A neighbor at cosine distance 0.71 (similarity 0.29, below the
floor). -/
def nbBelow : Neighbor :=
  { id := 1, doc := "passage: 天気", distance := 71/100,
    originalContent := some "天気", category := "chat", keywords := "天気" }

/-- The below-floor neighbor pointed at the one live record of stOne. -/
def nbBelowRec : Neighbor :=
  { id := 0, doc := "passage: 猫が好き", distance := 71/100,
    originalContent := some "猫が好き", category := "chat", keywords := "猫が好き" }

/-- A store whose single live record was created through the MCP tool
boundary with the tool-only category "exchange" (accepted by
memory_tools.py but outside memory.py's closed category set). -/
def stOneEx : Store := (save_memory_tool stEmpty "こんにちは" "exchange").1

/-- One archived line, for the purge counterexample store. -/
def archOne : ArchEntry :=
  { id := 0, content := "猫が好き", category := "chat", keywords := "猫が好き",
    createdAt := 0, archivedAt := 1, source := "" }

def stArch : Store :=
  { live := [], memoryArchive := some [archOne], feedback := [], feedbackArchive := [],
    insights := [], insightsArchive := [], dreamArchives := [], loraCount := 0,
    clock := 2 }

/-! ## General lemmas -/

theorem mem_insertDesc {x h : SearchHit} {l : List SearchHit} :
    x ∈ insertDesc h l ↔ x = h ∨ x ∈ l := by
  induction l with
  | nil => simp [insertDesc]
  | cons a as ih =>
    simp only [insertDesc]
    split
    · simp [List.mem_cons]
    · simp only [List.mem_cons, ih]
      tauto

theorem mem_sortDesc {x : SearchHit} {l : List SearchHit} :
    x ∈ sortDesc l ↔ x ∈ l := by
  induction l with
  | nil => simp [sortDesc]
  | cons a as ih =>
    simp only [sortDesc, List.foldr_cons] at *
    rw [mem_insertDesc, ih, List.mem_cons]

theorem natContains_iff {l : List Nat} {a : Nat} : l.contains a = true ↔ a ∈ l := by
  simp [List.contains, List.elem_iff]

theorem natContains_false {l : List Nat} {a : Nat} : l.contains a = false ↔ a ∉ l := by
  rw [Bool.eq_false_iff]
  exact not_congr natContains_iff

theorem semanticPass_sound {ns : List Neighbor} {seen : List Nat} {h : SearchHit}
    (hh : h ∈ (semanticPass ns seen).1) :
    ∃ n ∈ ns, seen.contains n.id = false ∧ h.id = n.id ∧
      3/10 ≤ max 0 (1 - n.distance) ∧ h.relevance = round3 (max 0 (1 - n.distance)) := by
  induction ns generalizing seen with
  | nil => simp [semanticPass] at hh
  | cons n ns ih =>
    simp only [semanticPass] at hh
    by_cases hc : seen.contains n.id
    · rw [if_pos hc] at hh
      obtain ⟨m, hm, rest⟩ := ih hh
      exact ⟨m, List.mem_cons_of_mem _ hm, rest⟩
    · rw [if_neg hc] at hh
      by_cases ht : (3:ℚ)/10 ≤ max 0 (1 - n.distance)
      · rw [if_pos ht] at hh
        rcases List.mem_cons.mp hh with rfl | htl
        · exact ⟨n, List.mem_cons_self _ _, Bool.eq_false_iff.mpr hc, rfl, ht, rfl⟩
        · obtain ⟨m, hm, hs, rest⟩ := ih htl
          refine ⟨m, List.mem_cons_of_mem _ hm, ?_, rest⟩
          simp only [List.contains_cons] at hs
          exact (Bool.or_eq_false_iff.mp hs).2
      · rw [if_neg ht] at hh
        obtain ⟨m, hm, hs, rest⟩ := ih hh
        refine ⟨m, List.mem_cons_of_mem _ hm, ?_, rest⟩
        simp only [List.contains_cons] at hs
        exact (Bool.or_eq_false_iff.mp hs).2

theorem semanticPass_complete {ns : List Neighbor} {seen : List Nat} {n : Neighbor}
    (hn : n ∈ ns) (hnd : (ns.map Neighbor.id).Nodup)
    (hseen : seen.contains n.id = false)
    (ht : 3/10 ≤ max 0 (1 - n.distance)) :
    ∃ h ∈ (semanticPass ns seen).1, h.id = n.id ∧
      h.relevance = round3 (max 0 (1 - n.distance)) := by
  induction ns generalizing seen with
  | nil => cases hn
  | cons m ms ih =>
    have hnd' : (ms.map Neighbor.id).Nodup := (List.nodup_cons.mp hnd).2
    rcases List.mem_cons.mp hn with rfl | htl
    · simp only [semanticPass]
      rw [if_neg (by rw [natContains_iff]; exact natContains_false.mp hseen), if_pos ht]
      exact ⟨_, List.mem_cons_self _ _, rfl, rfl⟩
    · have hne : m.id ≠ n.id := by
        intro he
        exact (List.nodup_cons.mp hnd).1 (he ▸ List.mem_map_of_mem Neighbor.id htl)
      simp only [semanticPass]
      by_cases hc : seen.contains m.id
      · rw [if_pos hc]
        exact ih htl hnd' hseen
      · rw [if_neg hc]
        have hseen' : (m.id :: seen).contains n.id = false := by
          simp only [List.contains_cons, Bool.or_eq_false_iff]
          exact ⟨by simp [Ne.symm hne], hseen⟩
        by_cases ht2 : (3:ℚ)/10 ≤ max 0 (1 - m.distance)
        · rw [if_pos ht2]
          obtain ⟨h, hmem, hrest⟩ := ih htl hnd' hseen'
          exact ⟨h, List.mem_cons_of_mem _ hmem, hrest⟩
        · rw [if_neg ht2]
          exact ih htl hnd' hseen'

theorem semanticPass_seen {ns : List Neighbor} {seen : List Nat} :
    (∀ i ∈ seen, i ∈ (semanticPass ns seen).2) ∧
    (∀ n ∈ ns, n.id ∈ (semanticPass ns seen).2) := by
  induction ns generalizing seen with
  | nil => simp [semanticPass]
  | cons n ns ih =>
    simp only [semanticPass]
    by_cases hc : seen.contains n.id
    · rw [if_pos hc]
      refine ⟨ih.1, fun m hm => ?_⟩
      rcases List.mem_cons.mp hm with rfl | h
      · exact ih.1 _ (by simpa using hc)
      · exact ih.2 _ h
    · rw [if_neg hc]
      have h2 : ((if (3:ℚ)/10 ≤ max 0 (1 - n.distance) then
          ({ id := n.id, content := n.content, category := n.category,
             keywords := n.keywords, relevance := round3 (max 0 (1 - n.distance)),
             matchType := "semantic" } :: (semanticPass ns (n.id :: seen)).1,
           (semanticPass ns (n.id :: seen)).2)
          else semanticPass ns (n.id :: seen)).2) = (semanticPass ns (n.id :: seen)).2 := by
        split <;> rfl
      rw [h2]
      refine ⟨fun i hi => ih.1 _ (List.mem_cons_of_mem _ hi), fun m hm => ?_⟩
      rcases List.mem_cons.mp hm with rfl | h
      · exact ih.1 _ (List.mem_cons_self _ _)
      · exact ih.2 _ h

theorem lexicalPass_not_seen {q : String} {qk : List String} {c : Option String}
    {ds : List MemRec} {seen : List Nat} {h : SearchHit}
    (hh : h ∈ (lexicalPass q qk c ds seen).1) : h.id ∉ seen := by
  induction ds generalizing seen with
  | nil => simp [lexicalPass] at hh
  | cons d ds ih =>
    simp only [lexicalPass] at hh
    by_cases hc : seen.contains d.id
    · rw [if_pos hc] at hh
      exact ih hh
    · rw [if_neg hc] at hh
      split at hh
      · exact ih hh
      · by_cases hs : (0:ℚ) < matchScore q d.content d.keywords qk
        · rw [if_pos hs] at hh
          rcases List.mem_cons.mp hh with rfl | htl
          · exact natContains_false.mp (Bool.eq_false_iff.mpr hc)
          · have := ih htl
            intro hmem
            exact this (List.mem_cons_of_mem _ hmem)
        · rw [if_neg hs] at hh
          exact ih hh

theorem foldl_save_memoryArchive (l : List (String × String)) (s : Store) :
    (l.foldl (fun s ci => (save s ci.2 ci.1 "dreaming").1) s).memoryArchive = s.memoryArchive := by
  induction l generalizing s with
  | nil => rfl
  | cons a as ih => rw [List.foldl_cons, ih]; rfl

theorem foldl_save_feedback (l : List (String × String)) (s : Store) :
    (l.foldl (fun s ci => (save s ci.2 ci.1 "dreaming").1) s).feedback = s.feedback := by
  induction l generalizing s with
  | nil => rfl
  | cons a as ih => rw [List.foldl_cons, ih]; rfl

theorem foldl_save_feedbackArchive (l : List (String × String)) (s : Store) :
    (l.foldl (fun s ci => (save s ci.2 ci.1 "dreaming").1) s).feedbackArchive = s.feedbackArchive := by
  induction l generalizing s with
  | nil => rfl
  | cons a as ih => rw [List.foldl_cons, ih]; rfl

theorem foldl_save_live (l : List (String × String)) (s : Store) :
    ∃ recs, (l.foldl (fun s ci => (save s ci.2 ci.1 "dreaming").1) s).live = s.live ++ recs := by
  induction l generalizing s with
  | nil => exact ⟨[], by simp⟩
  | cons a as ih =>
    obtain ⟨recs, h⟩ := ih ((save s a.2 a.1 "dreaming").1)
    have hsave : ∃ r, (save s a.2 a.1 "dreaming").1.live = s.live ++ [r] := ⟨_, rfl⟩
    obtain ⟨r, hr⟩ := hsave
    refine ⟨r :: recs, ?_⟩
    rw [List.foldl_cons, h, hr, List.append_assoc]
    rfl

theorem archive_insights_memoryArchive (s : Store) (n : List InsightEntry) :
    (archive_insights s n).memoryArchive = s.memoryArchive := rfl

theorem archive_insights_live (s : Store) (n : List InsightEntry) :
    (archive_insights s n).live = s.live := rfl

theorem archive_insights_feedback (s : Store) (n : List InsightEntry) :
    (archive_insights s n).feedback = s.feedback := rfl

theorem archive_insights_feedbackArchive (s : Store) (n : List InsightEntry) :
    (archive_insights s n).feedbackArchive = s.feedbackArchive := rfl

theorem archive_feedback_memoryArchive (s : Store) :
    (archive_feedback s).1.memoryArchive = s.memoryArchive := by
  simp only [archive_feedback]
  split <;> rfl

theorem archive_feedback_live (s : Store) : (archive_feedback s).1.live = s.live := by
  simp only [archive_feedback]
  split <;> rfl

theorem batch_delete_feedback (s : Store) (ids : List Nat) :
    (batch_delete s ids).1.feedback = s.feedback := rfl

theorem batch_delete_feedbackArchive (s : Store) (ids : List Nat) :
    (batch_delete s ids).1.feedbackArchive = s.feedbackArchive := rfl

theorem archive_feedback_of_isEmpty (s : Store) (h : (get_feedback s).isEmpty = true) :
    archive_feedback s = (s, 0) := by
  simp only [archive_feedback]
  rw [if_pos h]

theorem archive_feedback_of_ne (s : Store) (h : (get_feedback s).isEmpty = false) :
    archive_feedback s =
      ({ s with
          feedbackArchive := s.feedbackArchive ++
            (get_feedback s).map (fun fb => (fb, s.clock)),
          feedback := [] }, (get_feedback s).length) := by
  simp only [archive_feedback]
  rw [if_neg (by simp [h])]

theorem map_fst_pair (l : List FeedbackEntry) (c : Nat) :
    List.map Prod.fst (l.map (fun fb => (fb, c))) = l := by
  rw [List.map_map]
  have h : (Prod.fst ∘ fun fb : FeedbackEntry => (fb, c)) = id := rfl
  rw [h, List.map_id]

theorem dreamApply_status (st : Store) (mems : List MemRec) (feeds : List FeedbackEntry)
    (parsed : List (String × String)) :
    (dreamApply st mems feeds parsed).2.status = "completed" := rfl

theorem dreamApply_memoryArchive (st : Store) (mems : List MemRec)
    (feeds : List FeedbackEntry) (parsed : List (String × String)) :
    (dreamApply st mems feeds parsed).1.memoryArchive = st.memoryArchive := by
  simp only [dreamApply]
  split
  · rw [archive_feedback_memoryArchive, foldl_save_memoryArchive,
        archive_insights_memoryArchive]
  · show (batch_delete _ _).1.memoryArchive = _
    rw [batch_delete]
    rw [archive_feedback_memoryArchive, foldl_save_memoryArchive,
        archive_insights_memoryArchive]

theorem dreamApply_live (st : Store) (feeds : List FeedbackEntry)
    (parsed : List (String × String)) (hnd : (st.live.map MemRec.id).Nodup) :
    (∀ r ∈ st.live, ¬ r.category = "voluntary" →
        r ∉ (dreamApply st st.live feeds parsed).1.live) ∧
    (∀ r ∈ st.live, r.category = "voluntary" →
        r ∈ (dreamApply st st.live feeds parsed).1.live) := by
  obtain ⟨recs, hrecs⟩ := foldl_save_live parsed
    (archive_insights st (parsed.map (fun ci =>
      ({ timestamp := st.clock, category := ci.1, insight := ci.2,
         source := "dreaming" } : InsightEntry))))
  simp only [dreamApply]
  split
  case isTrue hmem =>
    have hfil : st.live.filter (fun m => ¬ m.category = "voluntary") = [] :=
      List.map_eq_nil_iff.mp (List.isEmpty_iff.mp hmem)
    constructor
    · intro r hr hv
      exfalso
      have hmemf : r ∈ st.live.filter (fun m => ¬ m.category = "voluntary") :=
        List.mem_filter.mpr ⟨hr, by simpa using hv⟩
      rw [hfil] at hmemf
      cases hmemf
    · intro r hr _
      rw [archive_feedback_live, hrecs, archive_insights_live]
      exact List.mem_append_left _ hr
  case isFalse hmem =>
    constructor
    · intro r hr hv hin
      have hin2 : r ∈ ((archive_feedback (parsed.foldl
          (fun s ci => (save s ci.2 ci.1 "dreaming").1)
          (archive_insights st (parsed.map (fun ci =>
            ({ timestamp := st.clock, category := ci.1, insight := ci.2,
               source := "dreaming" } : InsightEntry)))))).1.live.filter
          (fun x => ¬ ((st.live.filter (fun m => ¬ m.category = "voluntary")).map
              MemRec.id).contains x.id)) := hin
      have hpred := (List.mem_filter.mp hin2).2
      have hnc : ¬ ((st.live.filter (fun m => ¬ m.category = "voluntary")).map
          MemRec.id).contains r.id = true := by simpa using hpred
      apply hnc
      rw [natContains_iff]
      exact List.mem_map_of_mem MemRec.id (List.mem_filter.mpr ⟨hr, by simpa using hv⟩)
    · intro r hr hv
      show r ∈ List.filter _ _
      rw [archive_feedback_live, hrecs, archive_insights_live]
      refine List.mem_filter.mpr ⟨List.mem_append_left _ hr, ?_⟩
      simp only [decide_eq_true_eq]
      intro hcon
      rw [natContains_iff] at hcon
      obtain ⟨m, hm, hmid⟩ := List.mem_map.mp hcon
      have hm2 := List.mem_filter.mp hm
      have hmr : m = r := List.inj_on_of_nodup_map hnd hm2.1 hr hmid
      subst hmr
      have := hm2.2
      simp [hv] at this

theorem dreamApply_feedback (st : Store) (mems : List MemRec)
    (feeds : List FeedbackEntry) (parsed : List (String × String)) :
    ((get_feedback st).isEmpty = false →
      (dreamApply st mems feeds parsed).1.feedback = [] ∧
      (dreamApply st mems feeds parsed).1.feedbackArchive.map Prod.fst =
        st.feedbackArchive.map Prod.fst ++ get_feedback st) ∧
    ((get_feedback st).isEmpty = true →
      (dreamApply st mems feeds parsed).1.feedback = st.feedback ∧
      (dreamApply st mems feeds parsed).1.feedbackArchive = st.feedbackArchive) := by
  have hfeq : get_feedback (parsed.foldl
      (fun s ci => (save s ci.2 ci.1 "dreaming").1)
      (archive_insights st (parsed.map (fun ci =>
        ({ timestamp := st.clock, category := ci.1, insight := ci.2,
           source := "dreaming" } : InsightEntry))))) = get_feedback st := by
    simp only [get_feedback, foldl_save_feedback, archive_insights_feedback]
  constructor
  · intro hF
    have hcond : (get_feedback (parsed.foldl
        (fun s ci => (save s ci.2 ci.1 "dreaming").1)
        (archive_insights st (parsed.map (fun ci =>
          ({ timestamp := st.clock, category := ci.1, insight := ci.2,
             source := "dreaming" } : InsightEntry)))))).isEmpty = false := by
      rw [hfeq]; exact hF
    constructor
    · simp only [dreamApply]
      split
      · rw [archive_feedback_of_ne _ hcond]
      · rw [batch_delete_feedback, archive_feedback_of_ne _ hcond]
    · simp only [dreamApply]
      split
      · rw [archive_feedback_of_ne _ hcond]
        simp only [hfeq, foldl_save_feedbackArchive, archive_insights_feedbackArchive,
          List.map_append]
        rw [map_fst_pair]
      · rw [batch_delete_feedbackArchive, archive_feedback_of_ne _ hcond]
        simp only [hfeq, foldl_save_feedbackArchive, archive_insights_feedbackArchive,
          List.map_append]
        rw [map_fst_pair]
  · intro hT
    have hcond : (get_feedback (parsed.foldl
        (fun s ci => (save s ci.2 ci.1 "dreaming").1)
        (archive_insights st (parsed.map (fun ci =>
          ({ timestamp := st.clock, category := ci.1, insight := ci.2,
             source := "dreaming" } : InsightEntry)))))).isEmpty = true := by
      rw [hfeq]; exact hT
    constructor
    · simp only [dreamApply]
      split
      · rw [archive_feedback_of_isEmpty _ hcond]
        simp only [foldl_save_feedback, archive_insights_feedback]
      · rw [batch_delete_feedback, archive_feedback_of_isEmpty _ hcond]
        simp only [foldl_save_feedback, archive_insights_feedback]
    · simp only [dreamApply]
      split
      · rw [archive_feedback_of_isEmpty _ hcond]
        simp only [foldl_save_feedbackArchive, archive_insights_feedbackArchive]
      · rw [batch_delete_feedbackArchive, archive_feedback_of_isEmpty _ hcond]
        simp only [foldl_save_feedbackArchive, archive_insights_feedbackArchive]

theorem find_id_nodup {l : List MemRec} {r : MemRec} (hr : r ∈ l)
    (hnd : (l.map MemRec.id).Nodup) :
    l.find? (fun x => x.id = r.id) = some r := by
  induction l with
  | nil => cases hr
  | cons a as ih =>
    rcases List.mem_cons.mp hr with rfl | htl
    · rw [List.find?_cons_of_pos _ (by simp)]
    · have hne : a.id ≠ r.id := fun he =>
        (List.nodup_cons.mp (by simpa using hnd)).1 (he ▸ List.mem_map_of_mem MemRec.id htl)
      rw [List.find?_cons_of_neg _ (by simp [hne])]
      exact ih htl (List.nodup_cons.mp (by simpa using hnd)).2

theorem filter_ne_length {l : List MemRec} {r : MemRec} (hr : r ∈ l)
    (hnd : (l.map MemRec.id).Nodup) :
    (l.filter (fun x => ¬ x.id = r.id)).length = l.length - 1 := by
  induction l with
  | nil => cases hr
  | cons a as ih =>
    rcases List.mem_cons.mp hr with rfl | htl
    · rw [List.filter_cons_of_neg (by simp)]
      have heq : as.filter (fun x => ¬ x.id = r.id) = as := by
        refine List.filter_eq_self.mpr ?_
        intro x hx
        have hne : x.id ≠ r.id := fun he =>
          (List.nodup_cons.mp (by simpa using hnd)).1 (he ▸ List.mem_map_of_mem MemRec.id hx)
        simpa using hne
      rw [heq]
      simp
    · have hne : a.id ≠ r.id := fun he =>
        (List.nodup_cons.mp (by simpa using hnd)).1 (he ▸ List.mem_map_of_mem MemRec.id htl)
      rw [List.filter_cons_of_pos (by simpa using hne)]
      simp only [List.length_cons, ih htl (List.nodup_cons.mp (by simpa using hnd)).2]
      have hp : 1 ≤ as.length := List.length_pos.mpr (List.ne_nil_of_mem htl)
      omega

theorem save_memoryArchive (s : Store) (c cat src : String) :
    (save s c cat src).1.memoryArchive = s.memoryArchive := rfl

theorem archive_single (st : Store) (r : MemRec) (hr : r ∈ st.live)
    (hnd : (st.live.map MemRec.id).Nodup) :
    archive_memories st [r.id] =
      ({ st with
          memoryArchive := some (st.memoryArchive.getD [] ++
            [{ id := r.id, content := r.content, category := r.category,
               keywords := r.keywords, createdAt := r.createdAt,
               archivedAt := st.clock, source := r.source }]),
          live := st.live.filter (fun x => ¬ x.id = r.id) }, 1, 0) := by
  simp only [archive_memories, List.foldl_cons, List.foldl_nil, archiveOne,
    find_id_nodup hr hnd]
  simp

theorem restore_single (st₁ : Store) (e : ArchEntry)
    (hA : st₁.memoryArchive = some [e]) :
    restore_memories st₁ [0] =
      ({ (save st₁ e.content e.category e.source).1 with memoryArchive := some [] },
       1, 0) := by
  simp only [restore_memories, get_archived_memories, hA, List.foldl_cons, List.foldl_nil]
  rw [if_neg (by simp)]
  simp only [List.getD_cons_zero]
  simp only [remove_archive_entries, save_memoryArchive, hA]
  rw [if_neg (by decide)]
  simp [List.enum]

/-! ## Claims -/

/-- C1, counterexample: a consolidation cycle that returns status
"completed" does not archive the exported raw memory via the Memory
Store archive operation — the memory archive log does not even get
created (it stays `none`), while the exported record disappears from the
live index. -/
theorem dream_completed_archives_nothing :
    (dream stOne "[insight] remember many things").2.status = "completed" ∧
    (dream stOne "[insight] remember many things").2.memoriesProcessed = 1 ∧
    (dream stOne "[insight] remember many things").1.memoryArchive = none ∧
    recCat ∉ (dream stOne "[insight] remember many things").1.live := by
  refine ⟨rfl, rfl, rfl, ?_⟩
  decide

/-- C1, amended: after a consolidation cycle that returns status
"completed", every raw memory exported in step 1 whose category is not
"voluntary" has been removed from the live index by batch deletion,
bypassing the archive — the memory archive log is unchanged and receives
no entry; memories of category "voluntary" stay live; and all exported
feedback (the last ten entries) has been archived, the feedback log
being cleared. -/
theorem dream_completed_deletes_nonvoluntary (st : Store) (response : String)
    (hnd : (st.live.map MemRec.id).Nodup)
    (hne : ¬ (st.live.isEmpty = true ∧ (get_feedback st).isEmpty = true))
    (herr : errorFlagged response = false) :
    (dream st response).2.status = "completed" ∧
    (dream st response).1.memoryArchive = st.memoryArchive ∧
    (∀ r ∈ st.live, ¬ r.category = "voluntary" → r ∉ (dream st response).1.live) ∧
    (∀ r ∈ st.live, r.category = "voluntary" → r ∈ (dream st response).1.live) ∧
    ((get_feedback st).isEmpty = false →
      (dream st response).1.feedback = [] ∧
      (dream st response).1.feedbackArchive.map Prod.fst =
        st.feedbackArchive.map Prod.fst ++ get_feedback st) ∧
    ((get_feedback st).isEmpty = true →
      (dream st response).1.feedback = st.feedback ∧
      (dream st response).1.feedbackArchive = st.feedbackArchive) := by
  have hdream : dream st response = dreamApply st st.live (get_feedback st)
      (if (parse_categorized_insights response).isEmpty then
        [("insight", takeStr 500 (stripStr response))]
       else parse_categorized_insights response) := by
    simp only [dream]
    rw [if_neg hne, if_neg (by rw [herr]; exact Bool.false_ne_true)]
  rw [hdream]
  obtain ⟨hl1, hl2⟩ := dreamApply_live st (get_feedback st) _ hnd
  obtain ⟨hf1, hf2⟩ := dreamApply_feedback st st.live (get_feedback st) _
  exact ⟨dreamApply_status _ _ _ _, dreamApply_memoryArchive _ _ _ _, hl1, hl2, hf1, hf2⟩

/-- C1, witness for the amended theorem at a one-record store and a
well-formed reply. -/
theorem dream_completed_deletes_nonvoluntary_witness :
    (stOne.live.map MemRec.id).Nodup ∧
    (¬ (stOne.live.isEmpty = true ∧ (get_feedback stOne).isEmpty = true)) ∧
    errorFlagged "[insight] remember many things" = false ∧
    (dream stOne "[insight] remember many things").2.status = "completed" ∧
    recCat ∉ (dream stOne "[insight] remember many things").1.live ∧
    (dream stOne "[insight] remember many things").1.memoryArchive = stOne.memoryArchive := by
  refine ⟨by decide, by decide, by decide, ?_, ?_, ?_⟩
  · exact (dream_completed_deletes_nonvoluntary stOne _ (by decide) (by decide) (by decide)).1
  · exact (dream_completed_deletes_nonvoluntary stOne _ (by decide) (by decide)
      (by decide)).2.2.1 recCat (List.mem_cons_self _ _) (by decide)
  · exact (dream_completed_deletes_nonvoluntary stOne _ (by decide) (by decide) (by decide)).2.1

/-- C2, counterexample: UnifiedMemory.save accepts whitespace-only
content — it returns the generated id and stores a record whose content
is the empty string, instead of failing with a validation error. -/
theorem save_accepts_whitespace_content :
    stripStr "   " = "" ∧
    (save stEmpty "   " "chat" "").2 = stEmpty.clock ∧
    (save stEmpty "   " "chat" "").1.live.map MemRec.content = [""] := by
  refine ⟨by decide, rfl, by decide⟩

/-- C2, amended: UnifiedMemory.save performs no empty-content
validation — for every content, including empty or whitespace-only, it
stores one record and returns the generated id; the rejection happens
only at the MCP tool boundary, where save_memory answers an error-status
result and stores nothing for whitespace-only content, and otherwise
succeeds with the generated id. -/
theorem save_validation_only_at_tool_boundary (st : Store) (content category : String) :
    ((save st content category "").1.live.length = st.live.length + 1 ∧
      (save st content category "").2 = st.clock) ∧
    (stripStr content = "" →
      save_memory_tool st content category =
        (st, { status := "error", message := "Empty content", memoryId := none })) ∧
    (¬ stripStr content = "" →
      (save_memory_tool st content category).2.status = "ok" ∧
      (save_memory_tool st content category).2.memoryId = some st.clock ∧
      (save_memory_tool st content category).1.live.length = st.live.length + 1) := by
  refine ⟨⟨by simp [save], rfl⟩, fun h => ?_, fun h => ?_⟩
  · simp only [save_memory_tool]
    rw [if_pos h]
  · simp only [save_memory_tool]
    rw [if_neg h]
    exact ⟨rfl, rfl, by simp⟩

/-- C2, witness for the amended theorem on an empty and a nonempty
content. -/
theorem save_validation_only_at_tool_boundary_witness :
    stripStr "  " = "" ∧ (¬ stripStr "hello" = "") ∧
    save_memory_tool stEmpty "  " "chat" =
      (stEmpty, { status := "error", message := "Empty content", memoryId := none }) ∧
    (save_memory_tool stEmpty "hello" "chat").2.status = "ok" ∧
    (save stEmpty "  " "chat" "").1.live.length = stEmpty.live.length + 1 := by
  refine ⟨by decide, by decide, ?_, ?_, ?_⟩
  · exact (save_validation_only_at_tool_boundary stEmpty "  " "chat").2.1 (by decide)
  · exact ((save_validation_only_at_tool_boundary stEmpty "hello" "chat").2.2 (by decide)).1
  · exact (save_validation_only_at_tool_boundary stEmpty "  " "chat").1.1

/-- C3: when the generation collaborator answers with an error-flagged
reply, the dream cycle returns status "failed" with the error text
truncated to 100 characters, and the store is returned completely
unmodified, so the live count and the pending feedback are exactly what
they were before the call. -/
theorem dream_failed_leaves_store_unmodified (st : Store) (response : String)
    (hne : ¬ (st.live.isEmpty = true ∧ (get_feedback st).isEmpty = true))
    (herr : errorFlagged response = true) :
    (dream st response).1 = st ∧
    (dream st response).2.status = "failed" ∧
    (dream st response).2.reason = "LLM error: " ++ takeStr 100 response ∧
    count (dream st response).1 = count st ∧
    get_feedback (dream st response).1 = get_feedback st := by
  simp only [dream]
  rw [if_neg hne, if_pos herr]
  exact ⟨rfl, rfl, rfl, rfl, rfl⟩

/-- C3, witness at a one-record store and an error sentinel reply. -/
theorem dream_failed_leaves_store_unmodified_witness :
    (¬ (stOne.live.isEmpty = true ∧ (get_feedback stOne).isEmpty = true)) ∧
    errorFlagged "Error: connection refused" = true ∧
    (dream stOne "Error: connection refused").1 = stOne ∧
    (dream stOne "Error: connection refused").2.status = "failed" := by
  refine ⟨by decide, by decide, ?_, ?_⟩
  · exact (dream_failed_leaves_store_unmodified stOne _ (by decide) (by decide)).1
  · exact (dream_failed_leaves_store_unmodified stOne _ (by decide) (by decide)).2.1

/-- C4, counterexample: on the scenario input the insight parser yields
one entry, not two — the untagged numbered line is not recognized, since
only lines of the shape with a leading bracketed tag are accepted. -/
theorem insight_scenario_one_entry_not_two :
    (parse_categorized_insights c4Input).length = 1 ∧
    "十分な長さのテキストです" ∉ (parse_categorized_insights c4Input).map Prod.snd := by
  refine ⟨by decide, by decide⟩

/-- C4, amended: the insight parser, given the scenario input, yields
exactly one entry, with category preference and the tagged content; both
the short bullet line and the numbered line are dropped because only
bracket-tagged lines of stripped length at least five are accepted. -/
theorem insight_scenario_yields_tagged_entry_only :
    parse_categorized_insights c4Input = [("preference", "コーヒーが好き")] := by
  decide

/-- C5, counterexample: a reply whose first line carries the voluntary
save marker but which has no insight header is returned untouched — the
marked line is neither extracted into the save list nor removed from the
response text. -/
theorem save_marker_outside_section_kept :
    startsWithStr c5Input SAVE_MARKER = true ∧
    (responseParse c5Input).saves = [] ∧
    (responseParse c5Input).response = c5Input := by
  refine ⟨by decide, by decide, by decide⟩

/-- C5, amended: the voluntary-save marker is recognized only inside the
insight section: with no insight header, nothing is extracted and the
response is the raw text unchanged; when the header occurs, the saves
are exactly the marked remainders of the section lines (after bullet
stripping, with a case-insensitive marker match and nonempty remainder)
and the response is the pre-header text cleaned of a trailing
separator — the whole section is removed from it. -/
theorem save_marker_only_in_insight_section :
    (∀ raw, splitFirst INSIGHT_HEADER.data raw.data = none →
      (responseParse raw).saves = [] ∧ (responseParse raw).response = raw) ∧
    (∀ sect : String, (parseSection sect).2 =
      (splitLines (stripStr sect)).filterMap saveOfLine) ∧
    (∀ raw pre post, raw ≠ "" →
      splitFirst INSIGHT_HEADER.data raw.data = some (pre, post) →
      (responseParse raw).saves = (parseSection (String.mk post)).2 ∧
      (responseParse raw).response = respCleanup (String.mk pre)) := by
  refine ⟨?_, ?_, ?_⟩
  · intro raw h
    by_cases hr : raw = ""
    · subst hr
      exact ⟨rfl, rfl⟩
    · simp only [responseParse]
      rw [if_neg hr, h]
      exact ⟨rfl, rfl⟩
  · intro sect
    simp only [parseSection, List.filterMap_filterMap]
    congr 1
    funext x
    rcases h : classifyLine x with _ | (i | v) <;> simp [saveOfLine, h]
  · intro raw pre post hne h
    simp only [responseParse]
    rw [if_neg hne, h]
    exact ⟨rfl, rfl⟩

/-- C5, witness for the amended theorem: a header-free reply keeps its
marked line, and a reply with a header has the marked line extracted. -/
theorem save_marker_only_in_insight_section_witness :
    splitFirst INSIGHT_HEADER.data c5Input.data = none ∧
    (responseParse c5Input).saves = [] ∧
    (responseParse c5Input).response = c5Input ∧
    c5HeaderInput ≠ "" ∧
    splitFirst INSIGHT_HEADER.data c5HeaderInput.data =
      some ("hi\n---\n".data, "\n- [SAVE] remember me".data) ∧
    (responseParse c5HeaderInput).saves =
      (parseSection (String.mk "\n- [SAVE] remember me".data)).2 ∧
    (parseSection (String.mk "\n- [SAVE] remember me".data)).2 = ["remember me"] := by
  have h1 := save_marker_only_in_insight_section.1 c5Input (by decide)
  have h3 := save_marker_only_in_insight_section.2.2 c5HeaderInput
    "hi\n---\n".data "\n- [SAVE] remember me".data (by decide) (by decide)
  exact ⟨by decide, h1.1, h1.2, by decide, by decide, h3.1, by decide⟩

/-- C6: in the semantic pass, a neighbor with distance d is kept exactly
when the similarity max(0, 1 - d) is at least 0.3, and the kept hit
carries that similarity (rounded to three decimals, as stored); so a
candidate at exactly 0.3 is included and one strictly below is
excluded. -/
theorem semantic_relevance_threshold {neighbors : List Neighbor}
    (hnd : (neighbors.map Neighbor.id).Nodup) {n : Neighbor} (hn : n ∈ neighbors) :
    (∃ h ∈ (semanticPass neighbors []).1, h.id = n.id ∧
        h.relevance = round3 (max 0 (1 - n.distance))) ↔
      3/10 ≤ max 0 (1 - n.distance) := by
  constructor
  · rintro ⟨h, hmem, hid, _⟩
    obtain ⟨m, hm, _, hid2, hthr, _⟩ := semanticPass_sound hmem
    have hmn : m = n := List.inj_on_of_nodup_map hnd hm hn (by rw [← hid2, hid])
    exact hmn ▸ hthr
  · intro ht
    exact semanticPass_complete hn hnd (by rw [natContains_false]; exact List.not_mem_nil _) ht

/-- C6, witness at the boundary: a neighbor at distance 0.7 (similarity
exactly 0.3) and one at 0.71 (similarity 0.29). -/
theorem semantic_relevance_threshold_witness :
    (([nbAt, nbBelow].map Neighbor.id).Nodup) ∧
    nbAt ∈ [nbAt, nbBelow] ∧ nbBelow ∈ [nbAt, nbBelow] ∧
    max 0 (1 - nbAt.distance) = 3/10 ∧
    max 0 (1 - nbBelow.distance) < 3/10 ∧
    ((∃ h ∈ (semanticPass [nbAt, nbBelow] []).1, h.id = nbAt.id ∧
        h.relevance = round3 (max 0 (1 - nbAt.distance))) ↔
      (3:ℚ)/10 ≤ max 0 (1 - nbAt.distance)) ∧
    ((∃ h ∈ (semanticPass [nbAt, nbBelow] []).1, h.id = nbBelow.id ∧
        h.relevance = round3 (max 0 (1 - nbBelow.distance))) ↔
      (3:ℚ)/10 ≤ max 0 (1 - nbBelow.distance)) := by
  refine ⟨by decide, List.mem_cons_self _ _, ?_, ?_, ?_, ?_, ?_⟩
  · exact List.mem_cons_of_mem _ (List.mem_cons_self _ _)
  · norm_num [nbAt, max_def]
  · norm_num [nbBelow, max_def]
  · exact semantic_relevance_threshold (by decide) (List.mem_cons_self _ _)
  · exact semantic_relevance_threshold (by decide)
      (List.mem_cons_of_mem _ (List.mem_cons_self _ _))

/-- C7: the keyword-pass score of a record is the maximum of the
applicable tiers — 0.9 for case-insensitive containment of the query in
the content, 0.85 for case-sensitive containment, 0.85 for containment
in the cached keywords, 0.7 for overlap with the extracted query
keywords — and each of the three tier values 0.9, 0.85 and 0.7 is
attained on concrete inputs whose keyword fields come from the keyword
extractor. -/
theorem lexical_score_is_max_of_tiers :
    (∀ (q orig kws : String) (qkws : List String),
      matchScore q orig kws qkws =
        max (max (max (if strContains (lowerStr orig) (lowerStr q) then (9:ℚ)/10 else 0)
                      (if strContains orig q then (17:ℚ)/20 else 0))
                 (if strContains (lowerStr kws) (lowerStr q) then (17:ℚ)/20 else 0))
            (if qkws.any (fun kw => strContains (lowerStr orig) kw ||
                strContains (lowerStr kws) kw) then (7:ℚ)/10 else 0)) ∧
    matchScore "def" "xyz DEF" (String.intercalate "," (extract_keywords "xyz DEF"))
      (extract_keywords "def") = 9/10 ∧
    matchScore "c,d" "ABC def" (String.intercalate "," (extract_keywords "ABC def"))
      (extract_keywords "c,d") = 17/20 ∧
    matchScore "def ghi" "xyz def" (String.intercalate "," (extract_keywords "xyz def"))
      (extract_keywords "def ghi") = 7/10 := by
  refine ⟨?_, ?_, ?_, ?_⟩
  · intro q orig kws qkws
    simp only [matchScore]
    split_ifs <;> norm_num [max_def]
  · have b1 : strContains (lowerStr "xyz DEF") (lowerStr "def") = true := by decide
    have b2 : strContains (lowerStr (String.intercalate ","
        (extract_keywords "xyz DEF"))) (lowerStr "def") = true := by decide
    have b3 : (extract_keywords "def").any (fun kw =>
        strContains (lowerStr "xyz DEF") kw || strContains (lowerStr
          (String.intercalate "," (extract_keywords "xyz DEF"))) kw) = true := by decide
    simp only [matchScore, b1, b2, b3, if_true]
    norm_num [max_def]
  · have b1 : strContains (lowerStr "ABC def") (lowerStr "c,d") = false := by decide
    have b1b : strContains "ABC def" "c,d" = false := by decide
    have b2 : strContains (lowerStr (String.intercalate ","
        (extract_keywords "ABC def"))) (lowerStr "c,d") = true := by decide
    have b3 : (extract_keywords "c,d").any (fun kw =>
        strContains (lowerStr "ABC def") kw || strContains (lowerStr
          (String.intercalate "," (extract_keywords "ABC def"))) kw) = false := by decide
    simp only [matchScore, b1, b1b, b2, b3, if_true, Bool.false_eq_true, if_false]
    norm_num [max_def]
  · have b1 : strContains (lowerStr "xyz def") (lowerStr "def ghi") = false := by decide
    have b1b : strContains "xyz def" "def ghi" = false := by decide
    have b2 : strContains (lowerStr (String.intercalate ","
        (extract_keywords "xyz def"))) (lowerStr "def ghi") = false := by decide
    have b3 : (extract_keywords "def ghi").any (fun kw =>
        strContains (lowerStr "xyz def") kw || strContains (lowerStr
          (String.intercalate "," (extract_keywords "xyz def"))) kw) = true := by decide
    simp only [matchScore, b1, b1b, b2, b3, if_true, Bool.false_eq_true, if_false]
    norm_num [max_def]

/-- C8, counterexample: a live record of the tool-only category
"exchange" (created through memory_tools.save_memory into the same
collection) does not keep its category across archive and restore —
restore re-saves through UnifiedMemory.save, which coerces the unknown
category to "chat". -/
theorem exchange_category_not_preserved :
    stOneEx.live.map MemRec.category = ["exchange"] ∧
    (archive_memories stOneEx [0]).2.1 = 1 ∧
    (restore_memories (archive_memories stOneEx [0]).1 [0]).2.1 = 1 ∧
    (restore_memories (archive_memories stOneEx [0]).1 [0]).1.live.map
      MemRec.category = ["chat"] ∧
    (restore_memories (archive_memories stOneEx [0]).1 [0]).1.live.map
      MemRec.content = ["[余韻] こんにちは"] := by
  decide

/-- C8, amended: archiving one live record and restoring the sole
resulting archive line yields a new live record whose content equals the
original one and whose category is the original category when that lies
in memory.py's closed category set, and "chat" otherwise (the save-time
coercion of unknown categories); the live count returns to its
pre-archive value. -/
theorem archive_restore_round_trip (st : Store) (r : MemRec) (hr : r ∈ st.live)
    (hnd : (st.live.map MemRec.id).Nodup)
    (hArch : st.memoryArchive.getD [] = [])
    (hstrip : stripStr r.content = r.content) :
    (archive_memories st [r.id]).2.1 = 1 ∧
    count (archive_memories st [r.id]).1 = count st - 1 ∧
    (restore_memories (archive_memories st [r.id]).1 [0]).2.1 = 1 ∧
    count (restore_memories (archive_memories st [r.id]).1 [0]).1 = count st ∧
    (∃ rec, (restore_memories (archive_memories st [r.id]).1 [0]).1.live =
        (archive_memories st [r.id]).1.live ++ [rec] ∧
      rec.content = r.content ∧
      rec.category = (if CATEGORIES.contains r.category then r.category else "chat")) := by
  have hae := archive_single st r hr hnd
  have hst1A : (archive_memories st [r.id]).1.memoryArchive =
      some [{ id := r.id, content := r.content, category := r.category,
              keywords := r.keywords, createdAt := r.createdAt,
              archivedAt := st.clock, source := r.source }] := by
    rw [hae]
    simp [hArch]
  have hre := restore_single (archive_memories st [r.id]).1 _ hst1A
  have hpos : 1 ≤ st.live.length := List.length_pos.mpr (List.ne_nil_of_mem hr)
  refine ⟨by rw [hae], ?_, by rw [hre], ?_, ?_⟩
  · rw [hae]
    simp only [count]
    exact filter_ne_length hr hnd
  · rw [hre]
    simp only [count, save]
    rw [List.length_append]
    rw [hae]
    simp only [List.length_cons, List.length_nil]
    have hfl : (List.filter (fun x => decide ¬ x.id = r.id) st.live).length =
        st.live.length - 1 := filter_ne_length hr hnd
    simp only [hfl]
    omega
  · refine ⟨⟨st.clock, r.content, (if CATEGORIES.contains r.category then r.category else "chat"), String.intercalate "," (extract_keywords r.content), st.clock, r.source⟩, ?_, rfl, rfl⟩
    rw [hre, hae]
    simp only [save]
    rw [hstrip]

/-- C8, witness for the amended theorem at a one-record store with an
absent archive file; the record's category "chat" is in the closed set,
so it is preserved. -/
theorem archive_restore_round_trip_witness :
    recCat ∈ stOne.live ∧
    (stOne.live.map MemRec.id).Nodup ∧
    stOne.memoryArchive.getD [] = [] ∧
    stripStr recCat.content = recCat.content ∧
    (archive_memories stOne [recCat.id]).2.1 = 1 ∧
    count (archive_memories stOne [recCat.id]).1 = count stOne - 1 ∧
    count (restore_memories (archive_memories stOne [recCat.id]).1 [0]).1 = count stOne ∧
    (∃ rec, (restore_memories (archive_memories stOne [recCat.id]).1 [0]).1.live =
        (archive_memories stOne [recCat.id]).1.live ++ [rec] ∧
      rec.content = recCat.content ∧ rec.category = recCat.category) := by
  have h := archive_restore_round_trip stOne recCat (List.mem_cons_self _ _)
    (by decide) (by decide) (by decide)
  refine ⟨List.mem_cons_self _ _, by decide, by decide, by decide,
    h.1, h.2.1, h.2.2.2.1, ?_⟩
  obtain ⟨rec, h1, h2, h3⟩ := h.2.2.2.2
  refine ⟨rec, h1, h2, ?_⟩
  rw [h3]
  decide

/-- C9: a record returned by the vector index whose similarity is
strictly below 0.3 is excluded from the final search results entirely:
it is marked seen before the threshold test, so no hit of the final
result list can carry its id — not even a lexical substring match. -/
theorem below_threshold_excluded_entirely {st : Store} {query : String} {limit : Nat}
    {category : Option String} {neighbors : List Neighbor} {n : Neighbor}
    (hq : ¬ stripStr query = "") (hnd : (neighbors.map Neighbor.id).Nodup)
    (hn : n ∈ neighbors) (ht : max 0 (1 - n.distance) < 3/10) :
    ∀ h ∈ search st query limit category neighbors, h.id ≠ n.id := by
  intro h hh
  rw [search.eq_def, if_neg hq] at hh
  have hh1 := List.take_subset _ _ hh
  have hh2 := mem_sortDesc.mp hh1
  rcases List.mem_append.mp hh2 with hsem | hlex
  · obtain ⟨m, hm, _, hid2, hthr, _⟩ := semanticPass_sound hsem
    intro he
    have hmn : m = n := List.inj_on_of_nodup_map hnd hm hn (by rw [← hid2, he])
    subst hmn
    exact absurd hthr (not_le.mpr ht)
  · have h1 := lexicalPass_not_seen hlex
    intro he
    exact h1 (he ▸ (semanticPass_seen).2 n hn)

/-- C9, witness: a below-threshold neighbor pointing at a record whose
content contains the raw query literally is still absent from the
results. -/
theorem below_threshold_excluded_entirely_witness :
    (¬ stripStr "猫が好き" = "") ∧
    (([nbBelowRec].map Neighbor.id).Nodup) ∧
    nbBelowRec ∈ [nbBelowRec] ∧
    max 0 (1 - nbBelowRec.distance) < 3/10 ∧
    strContains recCat.content "猫が好き" = true ∧
    (∀ h ∈ search stOne "猫が好き" 5 none [nbBelowRec], h.id ≠ nbBelowRec.id) := by
  refine ⟨by decide, by decide, List.mem_cons_self _ _, ?_, by decide, ?_⟩
  · norm_num [nbBelowRec, max_def]
  · exact below_threshold_excluded_entirely (by decide) (by decide)
      (List.mem_cons_self _ _) (by norm_num [nbBelowRec, max_def])

/-- C10: when the archive file exists and the requested index set is
nonempty, the purge operation reports deleted_count equal to the number
of distinct requested indices — including indices out of range of the
archive log — while only the in-range positions are actually removed. -/
theorem purge_counts_requested_indices (st : Store) (arch : List ArchEntry)
    (indices : List Int) (hA : st.memoryArchive = some arch) (hne : indices ≠ []) :
    (delete_archived_memories st indices).2 = indices.dedup.length ∧
    (delete_archived_memories st indices).1.memoryArchive =
      some ((arch.enum.filter (fun e => ¬ indices.dedup.contains (e.1 : Int))).map
        Prod.snd) := by
  have hd : indices.dedup ≠ [] := fun h => hne ((List.dedup_eq_nil _).mp h)
  have hde : indices.dedup.isEmpty = false := by
    rw [Bool.eq_false_iff]
    intro h
    exact hd (List.isEmpty_iff.mp h)
  simp only [delete_archived_memories, remove_archive_entries, hA]
  rw [if_neg (by simp [hde])]
  exact ⟨rfl, rfl⟩

/-- C10, witness: purging indices 0, 5, 5 from a one-line archive
reports deleted_count 2 although only one line existed and was
removed. -/
theorem purge_counts_requested_indices_witness :
    stArch.memoryArchive = some [archOne] ∧
    ([0, 5, 5] : List Int) ≠ [] ∧
    (delete_archived_memories stArch [0, 5, 5]).2 = 2 ∧
    (delete_archived_memories stArch [0, 5, 5]).1.memoryArchive = some [] ∧
    1 < (delete_archived_memories stArch [0, 5, 5]).2 := by
  have h := purge_counts_requested_indices stArch [archOne] [0, 5, 5] rfl (by decide)
  refine ⟨rfl, by decide, ?_, ?_, ?_⟩
  · rw [h.1]
    decide
  · rw [h.2]
    decide
  · rw [h.1]
    decide

end Metacog
